import Mathlib

/-!
Verification development for the Circle IGMPv2 subsystem
(`lib/net/igmphandler.cpp`, `lib/net/netconfig.cpp`,
`include/circle/net/igmphandler.h`).

The engine state is embedded shallowly: the linked list of
`MulticastGroupState` records becomes a Lean `List`, machine integers
become `Nat` with explicit `% 2^32` where 32-bit overflow matters, the
logical clock is a `Nat` of milliseconds, and the process-wide xorshift
seed is threaded explicitly.  Loops whose termination is in question are
given an explicit fuel parameter and return `Option`: `none` marks a
fault (null-pointer dereference) or fuel exhaustion, mirroring control
flow that never ends.  `CNetConfig::DisableMulticastGroup` manipulates
its list through a `pPrev` pointer aliased to the current node, so for
that function the registry list is embedded with an explicit heap
(`List (Option MulticastGroupNode)`, index = address, `none` = freed),
making the aliasing visible.
-/

namespace Circle

/-- IPv4 address as four bytes, the value carried by `CIPAddress`. -/
structure IPv4Address where
  b0 : Nat
  b1 : Nat
  b2 : Nat
  b3 : Nat
deriving DecidableEq

/-- MAC address as six bytes, the value carried by `CMACAddress`. -/
structure MACAddress where
  m0 : Nat
  m1 : Nat
  m2 : Nat
  m3 : Nat
  m4 : Nat
  m5 : Nat
deriving DecidableEq

/-- Modelled from the spec: `CIPAddress::IsMulticast` is not under `src/`.
The spec (section 4.1) admits only addresses in the IPv4 multicast range,
class D, whose first octet lies in 224..239. -/
def isMulticast (ip : IPv4Address) : Bool :=
  decide (224 ≤ ip.b0 ∧ ip.b0 ≤ 239)

/-- Modelled from the spec: `CChecksumCalculator::SimpleCalculate` is not
under `src/`.  Spec section 6: standard Internet one's-complement
checksum.  `onesRed` is the end-around-carry reduction of a sum of 16-bit
words, written in closed form: for a positive sum it is the unique value
in 1..65535 congruent to the sum modulo 65535, which is exactly what the
usual fold-the-carries loop produces. -/
def onesRed (n : Nat) : Nat :=
  if n = 0 then 0 else (n - 1) % 65535 + 1

/-- Sum of the 16-bit big-endian words of a byte list (odd tail byte
padded with zero), the accumulator of the Internet checksum. -/
def wordSum : List Nat → Nat
  | [] => 0
  | [b] => b * 256
  | b1 :: b2 :: rest => (b1 * 256 + b2) + wordSum rest

/-- Modelled from the spec: the checksum value returned by
`CChecksumCalculator::SimpleCalculate` — the one's complement of the
one's-complement sum of the buffer.  A buffer is valid on receipt iff
this reduces to zero (`CHECKSUM_OK`). -/
def simpleCalculate (l : List Nat) : Nat :=
  65535 - onesRed (wordSum l)

/-- The xorshift step of the static `rand` in `igmphandler.cpp`
(Marsaglia, p. 4), on the 32-bit seed `a`. -/
def xorshift32 (a0 : Nat) : Nat :=
  let a := a0 % 4294967296
  let x1 := (a ^^^ (a <<< 13)) % 4294967296
  let x2 := x1 ^^^ (x1 >>> 17)
  (x2 ^^^ (x2 <<< 5)) % 4294967296

/-- The `rand(min, max)` helper of `igmphandler.cpp`: updates the seed by
one xorshift step and returns `(a % (max - min + 1)) + min` in unsigned
32-bit arithmetic.  Result is `(value, new seed)`; the process-wide
static seed is threaded explicitly. -/
def rand (a min max : Nat) : Nat × Nat :=
  ((xorshift32 a % (((max + 4294967296 - min) % 4294967296 + 1) % 4294967296) + min) % 4294967296,
   xorshift32 a)

/-- Registry entry (`MulticastGroup` in `netconfig.h`), value view: the
owned MAC and IP addresses. -/
structure MulticastGroup where
  macAddress : MACAddress
  ipAddress : IPv4Address
deriving DecidableEq

/-- Per-group engine session (`MulticastGroupState` in `igmphandler.h`). -/
structure MulticastGroupState where
  ipAddress : IPv4Address
  nReportsPending : Nat
  bLeavePending : Bool
  nNextReportTime : Nat
  nLastReportTime : Nat
deriving DecidableEq

/-- An outbound datagram handed to `CNetworkLayer::SendWithOptions`:
destination IP and the raw bytes. -/
structure OutMsg where
  dest : IPv4Address
  bytes : List Nat
deriving DecidableEq

/-- An inbound datagram dequeued from the receive queue. -/
structure Datagram where
  bytes : List Nat
  src : IPv4Address
  dst : IPv4Address
deriving DecidableEq

/-- Hardware-address derivation shared by `EnableMulticastGroup`
(netconfig.cpp lines 147..153) and `DisableMulticastGroup` (lines
221..226): the 6-byte buffer receives the IP bytes at offset 2
(`CopyTo (TempMACAddress + 2)`), then bytes 0, 1, 2 are overwritten with
01, 00, 5E.  Note no bit of the remaining IP bytes is masked. -/
def deriveHWAddr (ip : IPv4Address) : MACAddress :=
  let buf : List Nat := [0, 0, 0, 0, 0, 0]
  let buf := (((buf.set 2 ip.b0).set 3 ip.b1).set 4 ip.b2).set 5 ip.b3
  let buf := ((buf.set 0 0x01).set 1 0x00).set 2 0x5E
  ⟨buf.getD 0 0, buf.getD 1 0, buf.getD 2 0, buf.getD 3 0, buf.getD 4 0, buf.getD 5 0⟩

/-- Follows the words of claim C5 and spec section 3 (for comparison with
`deriveHWAddr`, which is translated from the source): fixed prefix
01:00:5E followed by the low 23 bits of the IP address, the top bit of
the second IP byte masked off. -/
def specMaskedHWAddr (ip : IPv4Address) : MACAddress :=
  ⟨0x01, 0x00, 0x5E, ip.b1 % 128, ip.b2, ip.b3⟩

/-- Registry node in the heap model of `CNetConfig`'s linked list:
`next` is the address of the next node, `none` a null pointer. -/
structure MulticastGroupNode where
  macAddress : MACAddress
  ipAddress : IPv4Address
  next : Option Nat
deriving DecidableEq

/-- Traversal loop of `CNetConfig::DisableMulticastGroup` (netconfig.cpp
lines 228..249) over a heap of nodes.  Per iteration the source sets
`pPrev = pGroup` (the CURRENT node) and `pNext = pGroup->pNext`; on a MAC
match it runs `pPrev->pNext = pNext` — which, since `pPrev == pGroup`,
stores the node's own `next` back into itself — then frees the node and
breaks.  The head pointer is never written.  `none` = dereference of a
freed node or fuel exhaustion (the heap well-formedness of actual states
makes `heap.length + 1` fuel sufficient). -/
def disableGo (heap : List (Option MulticastGroupNode)) (mac : MACAddress) :
    Nat → Option Nat → Option (List (Option MulticastGroupNode))
  | 0, _ => none
  | _ + 1, none => some heap
  | fuel + 1, some p =>
    match heap.getD p none with
    | none => none
    | some node =>
      if node.macAddress = mac then
        some ((heap.set p (some { node with next := node.next })).set p none)
      else
        disableGo heap mac fuel node.next

/-- `CNetConfig::DisableMulticastGroup` (netconfig.cpp lines 212..250):
no-op on a non-multicast address, otherwise derives the hardware address
and runs the removal loop.  Returns the new heap and the (never updated)
head pointer. -/
def disableMulticastGroup (heap : List (Option MulticastGroupNode))
    (head : Option Nat) (ip : IPv4Address) :
    Option (List (Option MulticastGroupNode) × Option Nat) :=
  if isMulticast ip then
    (disableGo heap (deriveHWAddr ip) (heap.length + 1) head).map (fun h2 => (h2, head))
  else
    some (heap, head)

/-- `CNetConfig::IsEnabledMulticastGroup` on the heap model: walk the
list from `cur` comparing stored IP addresses; `none` = dereference of a
freed node. -/
def isEnabledMulticastGroupNodes (heap : List (Option MulticastGroupNode))
    (ip : IPv4Address) : Nat → Option Nat → Option Bool
  | 0, _ => none
  | _ + 1, none => some false
  | fuel + 1, some p =>
    match heap.getD p none with
    | none => none
    | some node =>
      if node.ipAddress = ip then some true
      else isEnabledMulticastGroupNodes heap ip fuel node.next

/-- `CNetConfig::IsEnabledMulticastGroup` on the value view of a
well-formed registry list: true iff some entry's IP equals `ip`. -/
def isEnabledMulticastGroup (cfg : List MulticastGroup) (ip : IPv4Address) : Bool :=
  cfg.any fun g => decide (g.ipAddress = ip)

/-- Build an 8-byte IGMP message as `SendPendingReportsAndLeaves` does
(igmphandler.cpp lines 297..302 and 326..331): type byte, code 0,
checksum field zeroed, group address in bytes 4..7, then the checksum of
the 8 bytes stored in bytes 2..3. -/
def buildMessage (t : Nat) (ip : IPv4Address) : List Nat :=
  let c := simpleCalculate [t, 0, 0, 0, ip.b0, ip.b1, ip.b2, ip.b3]
  [t, 0, c / 256, c % 256, ip.b0, ip.b1, ip.b2, ip.b3]

/-- In-place rewrite of an inbound buffer into a V2 Membership Report
(igmphandler.cpp lines 272..274): set the type byte to 0x16, zero the
checksum field, then store the checksum computed over
`sizeof(TIGMPHeader)` = the FIRST 8 BYTES ONLY; the buffer keeps its
inbound length. -/
def rebuildReport (bytes : List Nat) : List Nat :=
  let b1 := ((bytes.set 0 0x16).set 2 0).set 3 0
  let c := simpleCalculate (b1.take 8)
  (b1.set 2 (c / 256)).set 3 (c % 256)

/-- Result of the per-datagram dispatch inside `Process`'s receive loop. -/
inductive InAction where
  | drop
  | generalQuery (code : Nat)
  | sendReport (dest : IPv4Address) (buf : List Nat) (len : Nat)
deriving DecidableEq

/-- One iteration of the receive loop of `CIGMPHandler::Process`
(igmphandler.cpp lines 228..282): drop if the destination is not an
enabled group, if the length is below the 8-byte header, or if the
checksum does not validate; on a Membership Query (type 0x11) either
mark a general query (all-zero group field, lines 261..268) or, for a
registered named group, rebuild the buffer in place as a report and send
it to the query's source with the inbound length (lines 269..279); any
other type is ignored. -/
def processDatagram (cfg : List MulticastGroup) (d : Datagram) : InAction :=
  if isEnabledMulticastGroup cfg d.dst = false then .drop
  else if d.bytes.length < 8 then .drop
  else if ¬(simpleCalculate d.bytes = 0) then .drop
  else if d.bytes.getD 0 0 = 0x11 then
    (if d.bytes.getD 4 0 = 0 ∧ d.bytes.getD 5 0 = 0 ∧ d.bytes.getD 6 0 = 0 ∧ d.bytes.getD 7 0 = 0 then
      .generalQuery (d.bytes.getD 1 0)
    else if isEnabledMulticastGroup cfg ⟨d.bytes.getD 4 0, d.bytes.getD 5 0, d.bytes.getD 6 0, d.bytes.getD 7 0⟩ = true then
      .sendReport d.src (rebuildReport d.bytes) d.bytes.length
    else .drop)
  else .drop

/-- `CIGMPHandler::ProcessMulticastGroupReportAll` (igmphandler.cpp lines
417..428) with explicit fuel.  The source advances `pState` ONLY inside
the `nReportsPending == 0` branch; on a session with pending reports the
loop body changes nothing and the loop repeats on the same node, which
the embedding renders as burning fuel on an unchanged list.  `none` =
fuel exhausted. -/
def processMulticastGroupReportAll :
    Nat → Nat → Nat → Nat → List MulticastGroupState →
    Option (List MulticastGroupState × Nat)
  | 0, _, _, _, _ => none
  | _ + 1, _, _, rng, [] => some ([], rng)
  | fuel + 1, now, maxDelay, rng, s :: rest =>
    if s.nReportsPending = 0 then
      (processMulticastGroupReportAll fuel now maxDelay (rand rng 0 maxDelay).2 rest).map
        (fun out =>
          ({ s with nReportsPending := 1, nNextReportTime := now + (rand rng 0 maxDelay).1 } :: out.1,
           out.2))
    else
      processMulticastGroupReportAll fuel now maxDelay rng (s :: rest)

/-- First loop of `CIGMPHandler::ProcessMulticastGroupChanges`
(igmphandler.cpp lines 361..368): set every session's leave-pending
flag. -/
def markLeaves (ss : List MulticastGroupState) : List MulticastGroupState :=
  ss.map fun s => { s with bLeavePending := true }

/-- Inner search of `ProcessMulticastGroupChanges` (lines 376..384 and
407..411): find the first session with the given group address and clear
its leave-pending flag; `none` when no session matches. -/
def updateOrFound : List MulticastGroupState → IPv4Address →
    Option (List MulticastGroupState)
  | [], _ => none
  | s :: rest, ip =>
    if s.ipAddress = ip then some ({ s with bLeavePending := false } :: rest)
    else (updateOrFound rest ip).map (fun l => s :: l)

/-- Outer loop of `ProcessMulticastGroupChanges` (lines 373..414) over
the registry entries: clear the flag of a matching session, or append a
new session with two pending reports, no pending leave, first report at
`now + rand(0, 1000)` and last-report time 0 (lines 386..405). -/
def reconcileGroups (now : Nat) :
    List MulticastGroup → List MulticastGroupState → Nat →
    List MulticastGroupState × Nat
  | [], ss, rng => (ss, rng)
  | g :: gs, ss, rng =>
    match updateOrFound ss g.ipAddress with
    | some ss2 => reconcileGroups now gs ss2 rng
    | none =>
      reconcileGroups now gs
        (ss ++ [⟨g.ipAddress, 2, false, now + (rand rng 0 1000).1, 0⟩])
        (rand rng 0 1000).2

/-- `CIGMPHandler::ProcessMulticastGroupChanges` (igmphandler.cpp lines
355..415): mark every session leave-pending, then reconcile against the
registry list. -/
def processMulticastGroupChanges (now : Nat) (gs : List MulticastGroup)
    (ss : List MulticastGroupState) (rng : Nat) :
    List MulticastGroupState × Nat :=
  reconcileGroups now gs (markLeaves ss) rng

/-- `CIGMPHandler::SendPendingReportsAndLeaves` (igmphandler.cpp lines
288..353).  Control flow of the source loop, traced on the list: on a
leave-pending session the source sends the Leave, unlinks and frees the
node and sets `pState = pNext`, but then FALLS THROUGH to the
unconditional advance `pPrev = pState; pState = pState->pNext;` — so the
successor node is stepped over without being examined, and when there is
no successor (`pNext == 0`) the advance dereferences a null pointer,
rendered as `none`.  On a due report the session sends one report,
decrements the pending count and reschedules (lines 323..348).  Result:
`(remaining sessions, messages in send order, new rand seed)`. -/
def sendPendingReportsAndLeaves (now : Nat) :
    Nat → List MulticastGroupState →
    Option (List MulticastGroupState × List OutMsg × Nat)
  | rng, [] => some ([], [], rng)
  | rng, s :: rest =>
    if s.bLeavePending then
      match rest with
      | [] => none
      | r :: rest2 =>
        (sendPendingReportsAndLeaves now rng rest2).map
          (fun out =>
            (r :: out.1, ⟨s.ipAddress, buildMessage 0x17 s.ipAddress⟩ :: out.2.1, out.2.2))
    else if s.nReportsPending > 0 ∧ now > s.nNextReportTime then
      if s.nReportsPending - 1 > 0 then
        (sendPendingReportsAndLeaves now (rand rng 0 1000).2 rest).map
          (fun out =>
            ({ s with nReportsPending := s.nReportsPending - 1,
                      nNextReportTime := now + (rand rng 0 1000).1 } :: out.1,
             ⟨s.ipAddress, buildMessage 0x16 s.ipAddress⟩ :: out.2.1, out.2.2))
      else
        (sendPendingReportsAndLeaves now rng rest).map
          (fun out =>
            ({ s with nReportsPending := 0, nNextReportTime := 0 } :: out.1,
             ⟨s.ipAddress, buildMessage 0x16 s.ipAddress⟩ :: out.2.1, out.2.2))
    else
      (sendPendingReportsAndLeaves now rng rest).map
        (fun out => (s :: out.1, out.2.1, out.2.2))

/-- The receive-loop drain of `Process` (igmphandler.cpp lines 228..282)
over a queue of datagrams: a dropped datagram leaves the session list,
the seed and the outbound traffic untouched and processing continues
with the next one; a general query runs the report-all pass (with the
query's max-response code times 100 as the delay bound); a specific
query emits its report. -/
def drainQueue (cfg : List MulticastGroup) (now fuel : Nat) :
    Nat → List MulticastGroupState → List Datagram →
    Option (List MulticastGroupState × List OutMsg × Nat)
  | rng, ss, [] => some (ss, [], rng)
  | rng, ss, d :: ds =>
    match processDatagram cfg d with
    | .drop => drainQueue cfg now fuel rng ss ds
    | .generalQuery code =>
      match processMulticastGroupReportAll fuel now (code * 100) rng ss with
      | none => none
      | some (ss2, rng2) => drainQueue cfg now fuel rng2 ss2 ds
    | .sendReport dest buf _ =>
      (drainQueue cfg now fuel rng ss ds).map
        (fun out => (out.1, ⟨dest, buf⟩ :: out.2.1, out.2.2))

/-! Helper lemmas -/

/-- A list of length at least eight starts with eight explicit elements. -/
theorem exists_cons8 (l : List Nat) (h : 8 ≤ l.length) :
    ∃ a b c d e f g k t,
      l = a :: b :: c :: d :: e :: f :: g :: k :: t := by
  rcases l with _ | ⟨a, _ | ⟨b, _ | ⟨c, _ | ⟨d, _ | ⟨e, _ | ⟨f, _ | ⟨g, _ | ⟨k, t⟩⟩⟩⟩⟩⟩⟩⟩ <;>
    simp at h
  exact ⟨a, b, c, d, e, f, g, k, t, rfl⟩

/-- Core end-around-carry identity: adding the one's complement of the
reduced sum to the sum reduces to the all-ones word. -/
theorem onesRed_round (W : Nat) : onesRed (W + (65535 - onesRed W)) = 65535 := by
  rcases Nat.eq_zero_or_pos W with rfl | hW
  · decide
  · unfold onesRed
    rw [if_neg (by omega : ¬W = 0)]
    rw [if_neg (by omega : ¬(W + (65535 - ((W - 1) % 65535 + 1)) = 0))]
    omega

/-- Inserting the computed checksum into the zeroed checksum field of an
8-byte message makes the checksum of the whole message reduce to zero. -/
theorem simpleCalculate_round (a b e f g k : Nat) :
    simpleCalculate [a, b, simpleCalculate [a, b, 0, 0, e, f, g, k] / 256,
      simpleCalculate [a, b, 0, 0, e, f, g, k] % 256, e, f, g, k] = 0 := by
  have hsum : wordSum [a, b, simpleCalculate [a, b, 0, 0, e, f, g, k] / 256,
      simpleCalculate [a, b, 0, 0, e, f, g, k] % 256, e, f, g, k]
      = wordSum [a, b, 0, 0, e, f, g, k]
        + (65535 - onesRed (wordSum [a, b, 0, 0, e, f, g, k])) := by
    simp only [wordSum, simpleCalculate]
    omega
  simp only [simpleCalculate] at *
  rw [hsum]
  have := onesRed_round (wordSum [a, b, 0, 0, e, f, g, k])
  omega

/-- The xorshift step stays inside 32 bits. -/
theorem xorshift32_lt (a : Nat) : xorshift32 a < 4294967296 := by
  unfold xorshift32
  exact Nat.mod_lt _ (by norm_num)

/-- Bounds of the source's `rand`: for `min ≤ max` within 32 bits the
returned value lies in `[min, max]`, from any seed. -/
theorem rand_bound (a min max : Nat) (h1 : min ≤ max) (h2 : max < 4294967296) :
    min ≤ (rand a min max).1 ∧ (rand a min max).1 ≤ max := by
  have hx := xorshift32_lt a
  unfold rand
  simp only
  have hinner : (max + 4294967296 - min) % 4294967296 = max - min := by omega
  rw [hinner]
  by_cases hc : max - min + 1 = 4294967296
  · rw [hc]
    simp only [Nat.mod_self, Nat.mod_zero]
    omega
  · have hd : (max - min + 1) % 4294967296 = max - min + 1 :=
      Nat.mod_eq_of_lt (by omega)
    rw [hd]
    have hmod : xorshift32 a % (max - min + 1) < max - min + 1 :=
      Nat.mod_lt _ (by omega)
    have houter : (xorshift32 a % (max - min + 1) + min) % 4294967296
        = xorshift32 a % (max - min + 1) + min :=
      Nat.mod_eq_of_lt (by omega)
    rw [houter]
    omega

/-- The inner search touches at most the leave-pending flag of each
session, position by position. -/
theorem updateOrFound_get (ss ss2 : List MulticastGroupState) (ip : IPv4Address)
    (h : updateOrFound ss ip = some ss2) :
    ∀ i s, ss.get? i = some s →
      ss2.get? i = some s ∨ ss2.get? i = some { s with bLeavePending := false } := by
  induction ss generalizing ss2 with
  | nil => simp [updateOrFound] at h
  | cons hd tl ih =>
    intro i s hget
    simp only [updateOrFound] at h
    split_ifs at h with hc
    · have hss2 := Option.some.inj h
      subst hss2
      cases i with
      | zero =>
        have : hd = s := Option.some.inj hget
        subst this
        exact Or.inr rfl
      | succ j => exact Or.inl hget
    · rcases Option.map_eq_some'.mp h with ⟨tl2, htl, hss2⟩
      subst hss2
      cases i with
      | zero => exact Or.inl hget
      | succ j => exact ih tl2 htl j s hget

/-- When no session carries the address, the search fails. -/
theorem updateOrFound_none (ss : List MulticastGroupState) (ip : IPv4Address)
    (h : ∀ s ∈ ss, s.ipAddress ≠ ip) : updateOrFound ss ip = none := by
  induction ss with
  | nil => rfl
  | cons hd tl ih =>
    simp only [updateOrFound]
    rw [if_neg (h hd (List.mem_cons_self hd tl))]
    rw [ih fun s hs => h s (List.mem_cons_of_mem hd hs)]
    rfl

/-- A successful search means some session carries the address. -/
theorem updateOrFound_some_mem (ss ss2 : List MulticastGroupState) (ip : IPv4Address)
    (h : updateOrFound ss ip = some ss2) : ∃ s ∈ ss, s.ipAddress = ip := by
  induction ss generalizing ss2 with
  | nil => simp [updateOrFound] at h
  | cons hd tl ih =>
    simp only [updateOrFound] at h
    split_ifs at h with hc
    · exact ⟨hd, List.mem_cons_self hd tl, hc⟩
    · rcases Option.map_eq_some'.mp h with ⟨tl2, htl, _⟩
      rcases ih tl2 htl with ⟨s, hs, hip⟩
      exact ⟨s, List.mem_cons_of_mem hd hs, hip⟩

/-- The search leaves the sequence of group addresses untouched. -/
theorem updateOrFound_ips (ss ss2 : List MulticastGroupState) (ip : IPv4Address)
    (h : updateOrFound ss ip = some ss2) :
    ss2.map (fun s => s.ipAddress) = ss.map (fun s => s.ipAddress) := by
  induction ss generalizing ss2 with
  | nil => simp [updateOrFound] at h
  | cons hd tl ih =>
    simp only [updateOrFound] at h
    split_ifs at h with hc
    · have hss2 := Option.some.inj h
      subst hss2
      rfl
    · rcases Option.map_eq_some'.mp h with ⟨tl2, htl, hss2⟩
      subst hss2
      simp [ih tl2 htl]

/-- Through the reconciliation fold, a session present at index `i`
survives at index `i` with at most its leave-pending flag cleared. -/
theorem reconcileGroups_stable (now : Nat) (gs : List MulticastGroup) :
    ∀ (ss : List MulticastGroupState) (rng i : Nat) (s : MulticastGroupState),
      ss.get? i = some s →
      ∃ t, (reconcileGroups now gs ss rng).1.get? i = some t ∧
        (t = s ∨ t = { s with bLeavePending := false }) := by
  induction gs with
  | nil =>
    intro ss rng i s h
    exact ⟨s, h, Or.inl rfl⟩
  | cons g gs ih =>
    intro ss rng i s h
    simp only [reconcileGroups]
    cases hu : updateOrFound ss g.ipAddress with
    | some ss2 =>
      rcases updateOrFound_get ss ss2 g.ipAddress hu i s h with h2 | h2
      · exact ih ss2 rng i s h2
      · rcases ih ss2 rng i _ h2 with ⟨t, ht, hor⟩
        refine ⟨t, ht, Or.inr ?_⟩
        rcases hor with rfl | rfl <;> rfl
    | none =>
      have hi : i < ss.length := by
        by_contra hn
        push_neg at hn
        rw [List.get?_eq_none.mpr hn] at h
        exact absurd h (by simp)
      have happ : (ss ++ [(⟨g.ipAddress, 2, false, now + (rand rng 0 1000).1, 0⟩ :
          MulticastGroupState)]).get? i = some s := by
        rw [List.get?_append hi]; exact h
      exact ih _ _ i s happ

/-- Dropping one more element gives a subcollection. -/
theorem drop_succ_subset (l : List MulticastGroupState) (n : Nat) :
    l.drop (n + 1) ⊆ l.drop n := by
  intro x hx
  rw [← List.drop_drop 1 n l] at hx
  exact List.drop_subset 1 (l.drop n) hx

/-- An element read off at index `n` belongs to the drop at `n`. -/
theorem mem_drop_of_get (l : List MulticastGroupState) (n : Nat)
    (t : MulticastGroupState) (h : l.get? n = some t) : t ∈ l.drop n := by
  have h0 : (l.drop n).get? 0 = some t := by
    rw [List.get?_drop]
    simpa using h
  exact List.get?_mem h0

/-- Through the reconciliation fold, a registry address with no matching
session gets a fresh session appended behind the original list, carrying
two pending reports, a clear leave flag, last-report time zero and a
first report within one second of `now`. -/
theorem reconcileGroups_creates (now : Nat) (tip : IPv4Address) (gs : List MulticastGroup) :
    ∀ (ss : List MulticastGroupState) (rng : Nat),
      (∃ g ∈ gs, g.ipAddress = tip) → (∀ s ∈ ss, s.ipAddress ≠ tip) →
      ∃ t ∈ (reconcileGroups now gs ss rng).1.drop ss.length,
        t.ipAddress = tip ∧ t.nReportsPending = 2 ∧ t.bLeavePending = false ∧
        t.nLastReportTime = 0 ∧ now ≤ t.nNextReportTime ∧
        t.nNextReportTime ≤ now + 1000 := by
  induction gs with
  | nil =>
    intro ss rng hg hs
    simp at hg
  | cons g gs ih =>
    intro ss rng hg hs
    simp only [reconcileGroups]
    by_cases hgip : g.ipAddress = tip
    · have hnone : updateOrFound ss g.ipAddress = none := by
        apply updateOrFound_none
        intro s hsm
        rw [hgip]
        exact hs s hsm
      rw [hnone]
      have hvb := rand_bound rng 0 1000 (by norm_num) (by norm_num)
      have hNget : (ss ++ [(⟨g.ipAddress, 2, false, now + (rand rng 0 1000).1, 0⟩ :
          MulticastGroupState)]).get? ss.length
          = some ⟨g.ipAddress, 2, false, now + (rand rng 0 1000).1, 0⟩ := by
        rw [List.get?_append_right (le_refl _)]
        simp
      rcases reconcileGroups_stable now gs _ (rand rng 0 1000).2 ss.length _ hNget with
        ⟨t, ht, hor⟩
      have htN : t = (⟨g.ipAddress, 2, false, now + (rand rng 0 1000).1, 0⟩ :
          MulticastGroupState) := by
        rcases hor with rfl | rfl <;> rfl
      refine ⟨t, mem_drop_of_get _ _ _ ht, ?_⟩
      rw [htN]
      refine ⟨hgip, rfl, rfl, rfl, ?_, ?_⟩
      · show now ≤ now + (rand rng 0 1000).1
        omega
      · show now + (rand rng 0 1000).1 ≤ now + 1000
        omega
    · have hg2 : ∃ g2 ∈ gs, g2.ipAddress = tip := by
        rcases hg with ⟨g2, hm, hip⟩
        rcases List.mem_cons.mp hm with rfl | hm2
        · exact absurd hip hgip
        · exact ⟨g2, hm2, hip⟩
      cases hu : updateOrFound ss g.ipAddress with
      | some ss2 =>
        have hs2 : ∀ s ∈ ss2, s.ipAddress ≠ tip := by
          intro s hsm
          have hmap := updateOrFound_ips ss ss2 g.ipAddress hu
          have hin : s.ipAddress ∈ ss2.map (fun s => s.ipAddress) :=
            List.mem_map_of_mem _ hsm
          rw [hmap] at hin
          rcases List.mem_map.mp hin with ⟨s0, hs0, hip⟩
          rw [← hip]
          exact hs s0 hs0
        have hlen : ss2.length = ss.length := by
          have := congrArg List.length (updateOrFound_ips ss ss2 g.ipAddress hu)
          simpa using this
        rcases ih ss2 rng hg2 hs2 with ⟨t, htmem, hprops⟩
        rw [hlen] at htmem
        exact ⟨t, htmem, hprops⟩
      | none =>
        have hs2 : ∀ s ∈ ss ++ [(⟨g.ipAddress, 2, false, now + (rand rng 0 1000).1, 0⟩ :
            MulticastGroupState)], s.ipAddress ≠ tip := by
          intro s hsm
          rcases List.mem_append.mp hsm with h1 | h1
          · exact hs s h1
          · rw [List.mem_singleton.mp h1]
            exact hgip
        rcases ih _ (rand rng 0 1000).2 hg2 hs2 with ⟨t, htmem, hprops⟩
        refine ⟨t, ?_, hprops⟩
        rw [List.length_append, List.length_singleton] at htmem
        exact drop_succ_subset _ _ htmem

/-! Sanity check: the report-all pass does advance over an idle session,
so the embedding is not vacuously stuck. -/

theorem reportAll_advances_on_idle :
    processMulticastGroupReportAll 2 0 100 0 [⟨⟨239, 1, 1, 1⟩, 0, false, 5, 0⟩]
      = some ([⟨⟨239, 1, 1, 1⟩, 1, false, 0, 0⟩], 0) := by decide

/-! Claim theorems -/

/-- Claim C1: the claim states that the report-all pass over the session
list triggered by a general query visits each session once and completes
for every `reportsPending` value.  The source advances the cursor only
inside the `nReportsPending == 0` branch, so on a session still owing
initial reports (here the freshly created state with two pending
reports) the loop never terminates: no amount of fuel makes the embedded
loop finish. -/
theorem reportAll_stuck_on_pending :
    ∀ fuel : Nat,
      processMulticastGroupReportAll fuel 0 100 0
        [⟨⟨239, 1, 1, 1⟩, 2, false, 0, 0⟩] = none := by
  intro fuel
  induction fuel with
  | zero => rfl
  | succ n ih => simpa [processMulticastGroupReportAll] using ih

/-- Claim C2: the claim states the timer flush visits every session
exactly once in list order.  Evaluating the embedded loop on a
leave-pending session followed by a session with a due report shows the
Leave is sent and the session deleted, but the successor is stepped over
without being visited: it stays in the list unchanged and no report is
emitted for it in this call, although its report was due
(`nReportsPending = 1`, `now = 5 > 0 = nNextReportTime`). -/
theorem flush_skips_session_after_removal :
    sendPendingReportsAndLeaves 5 7
      [⟨⟨239, 1, 1, 1⟩, 0, true, 0, 0⟩, ⟨⟨239, 1, 1, 2⟩, 1, false, 0, 0⟩]
      = some ([⟨⟨239, 1, 1, 2⟩, 1, false, 0, 0⟩],
              [⟨⟨239, 1, 1, 1⟩, buildMessage 0x17 ⟨239, 1, 1, 1⟩⟩], 7) := by
  decide

/-- Claim C3: the claim states every pointer access after removing a
leave-pending session is valid, even when the removed session is the
last one.  When the last session has its leave pending, the source sets
`pState = pNext = 0` and then executes `pState = pState->pNext`, a null
dereference; the embedded traversal reaches its error branch. -/
theorem flush_faults_when_last_session_leaves :
    sendPendingReportsAndLeaves 5 7 [⟨⟨239, 1, 1, 1⟩, 0, true, 0, 0⟩] = none := by
  decide

/-- Claim C4: the claim states `Disable` removes the first matching
entry, after which the list no longer contains it.  On a registry whose
single entry matches, the entry is reachable before the call; the call
frees the node (heap cell becomes `none`) but, because `pPrev` aliases
the node itself, neither the head pointer nor any predecessor is
rewritten — the head still addresses the freed cell and the next
membership lookup dereferences freed memory (the traversal faults). -/
theorem disable_leaves_entry_linked :
    isEnabledMulticastGroupNodes
        [some ⟨⟨0x01, 0x00, 0x5E, 1, 1, 1⟩, ⟨239, 1, 1, 1⟩, none⟩]
        ⟨239, 1, 1, 1⟩ 2 (some 0) = some true ∧
    disableMulticastGroup
        [some ⟨⟨0x01, 0x00, 0x5E, 1, 1, 1⟩, ⟨239, 1, 1, 1⟩, none⟩]
        (some 0) ⟨239, 1, 1, 1⟩ = some ([none], some 0) ∧
    isEnabledMulticastGroupNodes [none] ⟨239, 1, 1, 1⟩ 2 (some 0) = none := by
  decide

/-- Claim C5 counterexample: at the multicast address 224.128.0.1 the
source's derived hardware address keeps the full second IP byte (0x80),
so it differs from the spec's masked low-23-bit mapping. -/
theorem deriveHWAddr_mask_counterexample :
    isMulticast ⟨224, 128, 0, 1⟩ = true ∧
    deriveHWAddr ⟨224, 128, 0, 1⟩ ≠ specMaskedHWAddr ⟨224, 128, 0, 1⟩ := by
  decide

/-- Claim C5 as amended: for every multicast IP address the derived
hardware address is the fixed prefix 01:00:5E followed by the low 24
bits (the three low bytes) of the IP address, with no masking. -/
theorem deriveHWAddr_uses_low24 (ip : IPv4Address) (h : isMulticast ip = true) :
    deriveHWAddr ip = ⟨0x01, 0x00, 0x5E, ip.b1, ip.b2, ip.b3⟩ := rfl

/-- Witness for the amended C5 theorem at 239.1.1.1. -/
theorem deriveHWAddr_uses_low24_witness :
    deriveHWAddr ⟨239, 1, 1, 1⟩ = ⟨0x01, 0x00, 0x5E, 1, 1, 1⟩ :=
  deriveHWAddr_uses_low24 ⟨239, 1, 1, 1⟩ (by decide)

/-- Claim C6 counterexample: a 12-byte specific query (valid checksum
over all 12 bytes, registered group 239.1.1.1) produces exactly one
report sent with the inbound length of 12, but the checksum of the
message as sent, computed over the entire sent buffer, does NOT reduce
to zero — the source computed it over the first 8 bytes only. -/
theorem specific_query_full_checksum_counterexample :
    processDatagram [⟨⟨0x01, 0x00, 0x5E, 1, 1, 1⟩, ⟨239, 1, 1, 1⟩⟩]
        ⟨[0x11, 0x0A, 0x64, 0x11, 0xEF, 0x01, 0x01, 0x01, 0xAB, 0xCD, 0xEF, 0x13],
          ⟨10, 0, 0, 1⟩, ⟨239, 1, 1, 1⟩⟩
      = InAction.sendReport ⟨10, 0, 0, 1⟩
          (rebuildReport
            [0x11, 0x0A, 0x64, 0x11, 0xEF, 0x01, 0x01, 0x01, 0xAB, 0xCD, 0xEF, 0x13]) 12 ∧
    simpleCalculate
        (rebuildReport
          [0x11, 0x0A, 0x64, 0x11, 0xEF, 0x01, 0x01, 0x01, 0xAB, 0xCD, 0xEF, 0x13]) ≠ 0 := by
  decide

/-- Claim C6 as amended: every valid inbound specific query naming a
registered group makes `Process` send exactly one immediate report to
the query's source, with the inbound packet's length; the checksum as
sent is computed over the 8-byte IGMP header, and the checksum of the
header portion of the sent buffer reduces to zero when verified by the
same routine. -/
theorem specific_query_sends_single_report (cfg : List MulticastGroup) (d : Datagram)
    (h8 : 8 ≤ d.bytes.length)
    (hdst : isEnabledMulticastGroup cfg d.dst = true)
    (hck : simpleCalculate d.bytes = 0)
    (hty : d.bytes.getD 0 0 = 0x11)
    (hnz : ¬(d.bytes.getD 4 0 = 0 ∧ d.bytes.getD 5 0 = 0 ∧
      d.bytes.getD 6 0 = 0 ∧ d.bytes.getD 7 0 = 0))
    (hmem : isEnabledMulticastGroup cfg
        ⟨d.bytes.getD 4 0, d.bytes.getD 5 0, d.bytes.getD 6 0, d.bytes.getD 7 0⟩ = true) :
    processDatagram cfg d
        = InAction.sendReport d.src (rebuildReport d.bytes) d.bytes.length ∧
    simpleCalculate ((rebuildReport d.bytes).take 8) = 0 := by
  constructor
  · unfold processDatagram
    rw [hdst]
    rw [if_neg (by simp : ¬(true = false))]
    rw [if_neg (Nat.not_lt.mpr h8)]
    rw [hck]
    rw [if_neg (not_not_intro rfl)]
    rw [hty]
    rw [if_pos rfl]
    rw [if_neg hnz]
    rw [hmem]
    rw [if_pos rfl]
  · obtain ⟨b0, b1, b2, b3, b4, b5, b6, b7, t, hb⟩ := exists_cons8 d.bytes h8
    rw [hb]
    exact simpleCalculate_round 0x16 b1 b4 b5 b6 b7

/-- Witness for the amended C6 theorem: a concrete valid 8-byte specific
query for the registered group 239.1.1.1. -/
theorem specific_query_sends_single_report_witness :
    processDatagram [⟨⟨0x01, 0x00, 0x5E, 1, 1, 1⟩, ⟨239, 1, 1, 1⟩⟩]
        ⟨[0x11, 0x0A, 0xFE, 0xF2, 0xEF, 0x01, 0x01, 0x01], ⟨10, 0, 0, 1⟩, ⟨239, 1, 1, 1⟩⟩
      = InAction.sendReport ⟨10, 0, 0, 1⟩
          (rebuildReport [0x11, 0x0A, 0xFE, 0xF2, 0xEF, 0x01, 0x01, 0x01]) 8 ∧
    simpleCalculate
        ((rebuildReport [0x11, 0x0A, 0xFE, 0xF2, 0xEF, 0x01, 0x01, 0x01]).take 8) = 0 :=
  specific_query_sends_single_report _ _ (by decide) (by decide) (by decide)
    (by decide) (by decide) (by decide)

/-- Claim C7: a registry group with no matching session gets, from the
reconciliation step, a fresh session appended behind the pre-existing
list, with two pending reports, no pending leave, last-report time zero
and a first report scheduled within `[now, now + 1000]`. -/
theorem reconcile_creates_new_session (gs : List MulticastGroup)
    (ss : List MulticastGroupState) (now rng : Nat) (tip : IPv4Address)
    (hg : ∃ g ∈ gs, g.ipAddress = tip) (hs : ∀ s ∈ ss, s.ipAddress ≠ tip) :
    ∃ t ∈ (processMulticastGroupChanges now gs ss rng).1.drop ss.length,
      t.ipAddress = tip ∧ t.nReportsPending = 2 ∧ t.bLeavePending = false ∧
      t.nLastReportTime = 0 ∧ now ≤ t.nNextReportTime ∧
      t.nNextReportTime ≤ now + 1000 := by
  have hs2 : ∀ s ∈ markLeaves ss, s.ipAddress ≠ tip := by
    intro s hsm
    rcases List.mem_map.mp hsm with ⟨s0, hs0, rfl⟩
    exact hs s0 hs0
  have hlen : (markLeaves ss).length = ss.length := by simp [markLeaves]
  have hres := reconcileGroups_creates now tip gs (markLeaves ss) rng hg hs2
  rw [hlen] at hres
  exact hres

/-- Witness for C7: empty session list, registry holding 239.1.1.1. -/
theorem reconcile_creates_new_session_witness :
    ∃ t ∈ (processMulticastGroupChanges 0
        [⟨⟨0x01, 0x00, 0x5E, 1, 1, 1⟩, ⟨239, 1, 1, 1⟩⟩] [] 0).1.drop
        ([] : List MulticastGroupState).length,
      t.ipAddress = ⟨239, 1, 1, 1⟩ ∧ t.nReportsPending = 2 ∧ t.bLeavePending = false ∧
      t.nLastReportTime = 0 ∧ 0 ≤ t.nNextReportTime ∧ t.nNextReportTime ≤ 0 + 1000 :=
  reconcile_creates_new_session _ _ 0 0 ⟨239, 1, 1, 1⟩ (by decide) (by simp)

/-- Claim C8: an inbound datagram that is undersized, or whose
destination is not a member group, or whose checksum does not validate,
is dropped silently: the drain continues with the next queued datagram
from an unchanged session list and seed, and no outbound message is
produced for it. -/
theorem drain_drops_bad_datagram (cfg : List MulticastGroup) (now fuel rng : Nat)
    (ss : List MulticastGroupState) (d : Datagram) (ds : List Datagram)
    (h : d.bytes.length < 8 ∨ isEnabledMulticastGroup cfg d.dst = false ∨
      simpleCalculate d.bytes ≠ 0) :
    drainQueue cfg now fuel rng ss (d :: ds) = drainQueue cfg now fuel rng ss ds := by
  have hdrop : processDatagram cfg d = InAction.drop := by
    unfold processDatagram
    split_ifs <;> try rfl
    all_goals rcases h with h | h | h <;> simp_all
  simp [drainQueue, hdrop]

/-- Witness for C8: an undersized one-byte datagram aimed at a member
group is skipped. -/
theorem drain_drops_bad_datagram_witness :
    drainQueue [⟨⟨0x01, 0x00, 0x5E, 1, 1, 1⟩, ⟨239, 1, 1, 1⟩⟩] 0 3 0 []
        [⟨[0x11], ⟨10, 0, 0, 1⟩, ⟨239, 1, 1, 1⟩⟩]
      = drainQueue [⟨⟨0x01, 0x00, 0x5E, 1, 1, 1⟩, ⟨239, 1, 1, 1⟩⟩] 0 3 0 [] [] :=
  drain_drops_bad_datagram _ 0 3 0 [] _ [] (Or.inl (by decide))

/-- Claim C9: for `min ≤ max` (32-bit values), every value the
pseudo-random generator returns lies within `[min, max]` inclusive, from
any seed state — hence across any sequence of invocations. -/
theorem rand_within_bounds (a min max : Nat) (h1 : min ≤ max)
    (h2 : max < 4294967296) :
    min ≤ (rand a min max).1 ∧ (rand a min max).1 ≤ max :=
  rand_bound a min max h1 h2

/-- Witness for C9 at the source's initial seed 0xABCD1234 with the
engine's `[0, 1000]` jitter range. -/
theorem rand_within_bounds_witness :
    0 ≤ (rand 2882343476 0 1000).1 ∧ (rand 2882343476 0 1000).1 ≤ 1000 :=
  rand_within_bounds 2882343476 0 1000 (by decide) (by decide)

/-- Claim C10: the reconciliation step writes only the leave-pending
flag of pre-existing sessions: any session present at index `i` is still
at index `i` afterwards with the same group address, pending-report
count, next-report time and last-report time. -/
theorem reconcile_preserves_existing_sessions (gs : List MulticastGroup)
    (ss : List MulticastGroupState) (now rng i : Nat) (s : MulticastGroupState)
    (h : ss.get? i = some s) :
    ∃ t, (processMulticastGroupChanges now gs ss rng).1.get? i = some t ∧
      t.ipAddress = s.ipAddress ∧ t.nReportsPending = s.nReportsPending ∧
      t.nNextReportTime = s.nNextReportTime ∧
      t.nLastReportTime = s.nLastReportTime := by
  have hm : (markLeaves ss).get? i = some { s with bLeavePending := true } := by
    unfold markLeaves
    rw [List.get?_map, h]
    rfl
  rcases reconcileGroups_stable now gs (markLeaves ss) rng i _ hm with ⟨t, ht, hor⟩
  refine ⟨t, ht, ?_⟩
  rcases hor with rfl | rfl <;> exact ⟨rfl, rfl, rfl, rfl⟩

/-- Witness for C10: a session for 239.1.1.1 with a scheduled report
survives a reconciliation against an empty registry with everything but
its leave flag intact. -/
theorem reconcile_preserves_existing_sessions_witness :
    ∃ t, (processMulticastGroupChanges 7 [] [⟨⟨239, 1, 1, 1⟩, 2, false, 5, 0⟩] 0).1.get? 0
        = some t ∧
      t.ipAddress = ⟨239, 1, 1, 1⟩ ∧ t.nReportsPending = 2 ∧
      t.nNextReportTime = 5 ∧ t.nLastReportTime = 0 :=
  reconcile_preserves_existing_sessions [] [⟨⟨239, 1, 1, 1⟩, 2, false, 5, 0⟩] 7 0 0
    ⟨⟨239, 1, 1, 1⟩, 2, false, 5, 0⟩ rfl

end Circle
